import Mathlib

/-
Verification of the core simulation engine of the "Nova Defense" arcade game
(React/TypeScript, src/App.tsx + src/types.ts).

Modelling conventions:
* JS numbers are modelled as rationals (ℚ); all game arithmetic in the source
  is +, -, *, /, Math.abs, Math.max, Math.floor, Math.pow(_, 2) and Math.sqrt.
  Math.sqrt only occurs (a) in comparisons (tower selection, blast kills),
  which we translate to equivalent comparisons of squared distances (sqrt is
  strictly monotone on nonnegatives, and sqrt s < r ↔ 0 < r ∧ s < r², given
  s ≥ 0), and (b) in the interceptor progress increment speed / dist, where we
  use ratSqrt, the exact rational square root (exact whenever the true distance
  is rational, which covers every concrete input appearing in this file).
  The IEEE-special behaviour of the zero-distance interceptor (division by 0
  producing Infinity/NaN) is modelled separately and faithfully by the JNum
  mini-model below.
* React state semantics: inside one update(deltaTime) pass, the useState
  variables score and gameState read by the code are the values captured at
  render time (pass start); setScore(prev => prev + k) accumulates into the
  pending score, and of several setGameState calls in one pass the last wins.
  The model's GState carries the applied state between passes; update captures
  score0 at entry (the closure value) and threads the pending score through.
* Array.prototype.forEach with splice: forEach fixes the iteration bound at
  the array length on entry and at each index k runs the callback only if the
  (current) array still has an index k. Removing index k shifts later elements
  down, so the element after a removed one is skipped. loopGo below models
  exactly this.
* Entity ids (Math.random().toString() in the source) are modelled by a
  fresh-id counter; no claim depends on id values.
-/

set_option maxRecDepth 8000

attribute [local semireducible] Rat.add Rat.mul Rat.sub Rat.inv

namespace NovaDefense

/-- Arena width (types.ts GAME_WIDTH). -/
def GAME_WIDTH : ℚ := 800

/-- Arena height (types.ts GAME_HEIGHT). -/
def GAME_HEIGHT : ℚ := 600

/-- Winning score (types.ts WIN_SCORE). -/
def WIN_SCORE : ℚ := 1000

/-- Points per rocket destroyed by a blast (types.ts POINTS_PER_KILL). -/
def POINTS_PER_KILL : ℚ := 20

/-- Rocket entity (types.ts Rocket). -/
structure Rocket where
  id : Nat
  x : ℚ
  y : ℚ
  targetX : ℚ
  targetY : ℚ
  speed : ℚ
  progress : ℚ
deriving DecidableEq

/-- Interceptor entity (types.ts Interceptor). -/
structure Interceptor where
  id : Nat
  startX : ℚ
  startY : ℚ
  x : ℚ
  y : ℚ
  targetX : ℚ
  targetY : ℚ
  speed : ℚ
  progress : ℚ
deriving DecidableEq

/-- Explosion entity (types.ts Explosion). -/
structure Explosion where
  id : Nat
  x : ℚ
  y : ℚ
  radius : ℚ
  maxRadius : ℚ
  growthRate : ℚ
  isExpanding : Bool
deriving DecidableEq

/-- City entity (types.ts City). -/
structure City where
  id : Nat
  x : ℚ
  y : ℚ
  isDestroyed : Bool
deriving DecidableEq

/-- Tower entity (types.ts Tower); ammo is modelled as ℤ so that
nonnegativity is a real statement, not a typing artefact. -/
structure Tower where
  id : Nat
  x : ℚ
  y : ℚ
  ammo : ℤ
  maxAmmo : ℤ
  isDestroyed : Bool
deriving DecidableEq

/-- Game state machine states (types.ts GameState). -/
inductive GameState where
  | START
  | PLAYING
  | WON
  | LOST
deriving DecidableEq

/-- Full simulation state: the entity registry, score, game state, the spawn
accumulator and the fresh-id counter (App.tsx refs and useState). -/
structure GState where
  gameState : GameState
  rockets : List Rocket
  interceptors : List Interceptor
  explosions : List Explosion
  towers : List Tower
  cities : List City
  score : ℚ
  spawnTimer : ℚ
  nextId : Nat
deriving DecidableEq

/-- The three Math.random() draws a spawn trigger consumes
(target pick, spawn x, speed); each is a value in [0, 1). -/
structure SpawnRand where
  pick : ℚ
  xf : ℚ
  sf : ℚ
deriving DecidableEq

/-- Initial towers (App.tsx INITIAL_TOWERS): ammo 40/80/40 at x = 50, 400, 750,
y = GAME_HEIGHT - 40. -/
def INITIAL_TOWERS : List Tower :=
  [ ⟨0, 50, GAME_HEIGHT - 40, 40, 40, false⟩,
    ⟨1, GAME_WIDTH / 2, GAME_HEIGHT - 40, 80, 80, false⟩,
    ⟨2, GAME_WIDTH - 50, GAME_HEIGHT - 40, 40, 40, false⟩ ]

/-- Initial cities (App.tsx INITIAL_CITIES): x = 150..650 step 100,
y = GAME_HEIGHT - 30. -/
def INITIAL_CITIES : List City :=
  [ ⟨0, 150, GAME_HEIGHT - 30, false⟩,
    ⟨1, 250, GAME_HEIGHT - 30, false⟩,
    ⟨2, 350, GAME_HEIGHT - 30, false⟩,
    ⟨3, 450, GAME_HEIGHT - 30, false⟩,
    ⟨4, 550, GAME_HEIGHT - 30, false⟩,
    ⟨5, 650, GAME_HEIGHT - 30, false⟩ ]

/-- State right after resetGame (App.tsx resetGame): fresh towers and cities,
no projectiles, score 0, state PLAYING. -/
def resetState : GState :=
  ⟨GameState.PLAYING, [], [], [], INITIAL_TOWERS, INITIAL_CITIES, 0, 0, 0⟩

/-- Newton iteration step chain for the integer square root; the fuel only
bounds the number of strictly decreasing steps actually taken. -/
def sqrtGo (n : Nat) : Nat → Nat → Nat
  | x, 0 => x
  | x, fuel + 1 =>
    let y := (x + n / x) / 2
    if y < x then sqrtGo n y fuel else x

/-- Integer square root (rounded down), by Newton iteration. -/
def natSqrt (n : Nat) : Nat := if n ≤ 1 then n else sqrtGo n n n

/-- Exact rational square root: the square root when the (reduced) numerator
and denominator are both perfect squares, 0 otherwise.  This agrees with
Math.sqrt exactly whenever the true square root is rational, which holds for
every concrete input used in the theorems below. -/
def ratSqrt (q : ℚ) : ℚ :=
  if (natSqrt q.num.toNat) * (natSqrt q.num.toNat) = q.num.toNat ∧
     (natSqrt q.den) * (natSqrt q.den) = q.den then
    ((natSqrt q.num.toNat : ℚ)) / ((natSqrt q.den : ℚ))
  else 0

/-- Advance one rocket by one tick (App.tsx update, lines 138-140):
progress += speed/100, then each coordinate moves toward the target by
(target - pos) * (speed/100) / (1 - progress + 0.01), using the already
incremented progress. -/
def advanceRocket (r : Rocket) : Rocket :=
  let p := r.progress + r.speed / 100
  let nx := r.x + (r.targetX - r.x) * (r.speed / 100) / (1 - p + 1/100)
  let ny := r.y + (r.targetY - r.y) * (r.speed / 100) / (1 - p + 1/100)
  { r with progress := p, x := nx, y := ny }

/-- Advance one interceptor by one tick (App.tsx update, lines 173-179):
progress += speed / distance(start, target); position is linear interpolation
start + (target - start) * progress.  The source computes the distance by
Math.sqrt; ratSqrt is exact on every rational-distance configuration. -/
def advanceInter (i : Interceptor) : Interceptor :=
  let dx := i.targetX - i.startX
  let dy := i.targetY - i.startY
  let dist := ratSqrt (dx * dx + dy * dy)
  let p := i.progress + i.speed / dist
  { i with progress := p, x := i.startX + dx * p, y := i.startY + dy * p }

/-- Explosion created by a rocket impact (App.tsx lines 145-153):
radius 0, maxRadius 40, growthRate 2, expanding. -/
def mkRocketExplosion (id : Nat) (tX tY : ℚ) : Explosion :=
  ⟨id, tX, tY, 0, 40, 2, true⟩

/-- Explosion created by an interceptor detonation (App.tsx lines 182-190):
radius 0, maxRadius 50, growthRate 1.5, expanding. -/
def mkInterExplosion (id : Nat) (tX tY : ℚ) : Explosion :=
  ⟨id, tX, tY, 0, 50, 3/2, true⟩

/-- Rocket-impact damage to one city (App.tsx lines 156-160): destroyed when
the city is strictly within 10 units of the impact point on both axes. -/
def damageCity (tX tY : ℚ) (c : City) : City :=
  if |c.x - tX| < 10 ∧ |c.y - tY| < 10 then { c with isDestroyed := true } else c

/-- Rocket-impact damage to one tower (App.tsx lines 161-165). -/
def damageTower (tX tY : ℚ) (t : Tower) : Tower :=
  if |t.x - tX| < 10 ∧ |t.y - tY| < 10 then { t with isDestroyed := true } else t

/-- One step of the explosion radius/phase automaton (App.tsx lines 197-205).
Returns the updated explosion and whether it is removed (radius collapsed). -/
def expPhase (e : Explosion) : Explosion × Bool :=
  if e.isExpanding then
    let r := e.radius + e.growthRate
    ({ e with radius := r,
              isExpanding := if e.maxRadius ≤ r then false else e.isExpanding },
     false)
  else
    let r := e.radius - e.growthRate * (1/2)
    ({ e with radius := r }, decide (r ≤ 0))

/-- Blast-kill test (App.tsx lines 209-210): Math.sqrt(distSq) < radius,
translated to the equivalent 0 < radius ∧ distSq < radius². -/
def killCondB (ex ey radius : ℚ) (r : Rocket) : Bool :=
  decide (0 < radius ∧
    (r.x - ex) * (r.x - ex) + (r.y - ey) * (r.y - ey) < radius * radius)

/-- JavaScript Array.prototype.forEach with possible splice(k, 1) inside the
callback: the iteration bound is the length on entry (the fuel), and index k
is processed only if the current array still has an index k.  Removing index
k shifts later elements down, so the element that followed a removed one is
not processed in that pass. -/
def loopGo (step : GState → Nat → GState) : GState → Nat → Nat → GState
  | st, _, 0 => st
  | st, k, fuel + 1 => loopGo step (step st k) (k + 1) fuel

/-- Per-index body of the rockets forEach (App.tsx lines 137-169): advance the
rocket in place; on arrival (y ≥ targetY) push an explosion at the target,
damage every city and tower strictly within 10 units on both axes, and splice
the rocket out. -/
def rocketStep (st : GState) (k : Nat) : GState :=
  match st.rockets[k]? with
  | none => st
  | some r =>
    let r' := advanceRocket r
    if r'.targetY ≤ r'.y then
      { st with
        rockets := (st.rockets.set k r').eraseIdx k,
        explosions := st.explosions ++ [mkRocketExplosion st.nextId r'.targetX r'.targetY],
        cities := st.cities.map (damageCity r'.targetX r'.targetY),
        towers := st.towers.map (damageTower r'.targetX r'.targetY),
        nextId := st.nextId + 1 }
    else { st with rockets := st.rockets.set k r' }

/-- Per-index body of the interceptors forEach (App.tsx lines 172-193):
advance in place; at progress ≥ 1 push an explosion at the target point and
splice the interceptor out. -/
def interStep (st : GState) (k : Nat) : GState :=
  match st.interceptors[k]? with
  | none => st
  | some i0 =>
    let i := advanceInter i0
    if 1 ≤ i.progress then
      { st with
        interceptors := (st.interceptors.set k i).eraseIdx k,
        explosions := st.explosions ++ [mkInterExplosion st.nextId i.targetX i.targetY],
        nextId := st.nextId + 1 }
    else { st with interceptors := st.interceptors.set k i }

/-- Per-index body of the inner rocket forEach of the explosion loop
(App.tsx lines 208-214): splice rockets strictly inside the blast radius and
award POINTS_PER_KILL each (setScore accumulates into the pending score). -/
def killStep (ex ey radius : ℚ) (st : GState) (k : Nat) : GState :=
  match st.rockets[k]? with
  | none => st
  | some r =>
    if killCondB ex ey radius r then
      { st with rockets := st.rockets.eraseIdx k, score := st.score + POINTS_PER_KILL }
    else st

/-- Per-index body of the explosions forEach (App.tsx lines 196-215): run the
radius/phase automaton (splicing a collapsed explosion), then — with the
updated explosion object, even if just removed — run the rocket kill loop. -/
def expStep (st : GState) (k : Nat) : GState :=
  match st.explosions[k]? with
  | none => st
  | some e =>
    let e' := (expPhase e).1
    let removed := (expPhase e).2
    let st1 :=
      if removed then { st with explosions := (st.explosions.set k e').eraseIdx k }
      else { st with explosions := st.explosions.set k e' }
    loopGo (killStep e'.x e'.y e'.radius) st1 0 st1.rockets.length

/-- Rockets phase of one update pass. -/
def rocketsPhase (st : GState) : GState := loopGo rocketStep st 0 st.rockets.length

/-- Interceptors phase of one update pass. -/
def intersPhase (st : GState) : GState := loopGo interStep st 0 st.interceptors.length

/-- Explosions phase of one update pass. -/
def expsPhase (st : GState) : GState := loopGo expStep st 0 st.explosions.length

/-- Spawn interval in ms (App.tsx line 118): max(500, 2000 - (score/100)*100). -/
def spawnRate (score : ℚ) : ℚ := max 500 (2000 - score / 100 * 100)

/-- Candidate spawn targets (App.tsx line 121): positions of the non-destroyed
cities followed by the non-destroyed towers. -/
def spawnTargets (st : GState) : List (ℚ × ℚ) :=
  (st.cities.filter (fun c => !c.isDestroyed)).map (fun c => (c.x, c.y)) ++
  (st.towers.filter (fun t => !t.isDestroyed)).map (fun t => (t.x, t.y))

/-- Spawner step (App.tsx lines 117-134): accumulate deltaTime; past the spawn
interval, reset the accumulator and, if some city or tower survives, create a
rocket at a random x on y = 0 aimed at a random survivor, with
speed = 0.5 + rand * 0.5 + score / 2000. -/
def spawnStep (st : GState) (dt : ℚ) (rnd : SpawnRand) : GState :=
  let timer := st.spawnTimer + dt
  if spawnRate st.score < timer then
    let st' := { st with spawnTimer := 0 }
    let targets := spawnTargets st'
    if 0 < targets.length then
      match targets[((rnd.pick * targets.length).floor.toNat)]? with
      | none => st'
      | some p =>
        { st' with
          rockets := st'.rockets ++
            [⟨st'.nextId, rnd.xf * GAME_WIDTH, 0, p.1, p.2,
              1/2 + rnd.sf * (1/2) + st'.score / 2000, 0⟩],
          nextId := st'.nextId + 1 }
    else st'
  else { st with spawnTimer := timer }

/-- All towers destroyed (App.tsx line 221). -/
def allTowersDestroyed (ts : List Tower) : Bool := ts.all (fun t => t.isDestroyed)

/-- The four mutation phases of one update pass, in source order:
spawner, rockets, interceptors, explosions (App.tsx lines 116-215). -/
def passCore (st : GState) (dt : ℚ) (rnd : SpawnRand) : GState :=
  expsPhase (intersPhase (rocketsPhase (spawnStep st dt rnd)))

/-- One full update(deltaTime) pass (App.tsx lines 113-224).  score0 is the
closure value of the score useState captured at pass start; the win check
(line 218) reads score0, not the pending score accumulated by the kill
rewards.  The two state checks both execute (there is no else between them),
and of the two setGameState calls the later — LOST — wins. -/
def update (st : GState) (dt : ℚ) (rnd : SpawnRand) : GState :=
  if st.gameState = GameState.PLAYING then
    let score0 := st.score
    let st1 := passCore st dt rnd
    let st2 := if WIN_SCORE ≤ score0 then { st1 with gameState := GameState.WON } else st1
    if allTowersDestroyed st2.towers then { st2 with gameState := GameState.LOST } else st2
  else st

/-- Tower eligibility to fire (App.tsx line 88): ammo > 0 and not destroyed. -/
def eligB (t : Tower) : Bool := decide (0 < t.ammo) && !t.isDestroyed

/-- Squared Euclidean distance from a tower to the target point.  The source
compares Math.sqrt of this value (line 89); sqrt is strictly monotone on
nonnegatives, so all comparisons below use the squares. -/
def dSq (tx ty : ℚ) (t : Tower) : ℚ :=
  (t.x - tx) * (t.x - tx) + (t.y - ty) * (t.y - ty)

/-- The tower-selection forEach (App.tsx lines 84-95): linear scan keeping the
index and squared distance of the best eligible tower so far; a later tower
replaces the best only at strictly smaller distance, so the first of several
equidistant eligible towers wins.  The accumulator none plays minDist =
Infinity. -/
def selectGo (tx ty : ℚ) : List Tower → Nat → Option (Nat × ℚ) → Option (Nat × ℚ)
  | [], _, acc => acc
  | t :: ts, i, acc =>
    if eligB t &&
       (match acc with
        | none => true
        | some p => decide (dSq tx ty t < p.2)) then
      selectGo tx ty ts (i + 1) (some (i, dSq tx ty t))
    else
      selectGo tx ty ts (i + 1) acc

/-- Index (and squared distance) of the tower fireInterceptor fires from. -/
def selectTower (ts : List Tower) (tx ty : ℚ) : Option (Nat × ℚ) :=
  selectGo tx ty ts 0 none

/-- fireInterceptor(targetX, targetY) (App.tsx lines 80-111): no-op unless
PLAYING; otherwise fire from the selected tower — decrement its ammo and push
an interceptor at the tower's position with speed 10 and progress 0 — or do
nothing if no tower qualifies. -/
def fireInterceptor (st : GState) (tx ty : ℚ) : GState :=
  if st.gameState = GameState.PLAYING then
    match selectTower st.towers tx ty with
    | none => st
    | some jd =>
      match st.towers[jd.1]? with
      | none => st
      | some b =>
        { st with
          towers := st.towers.set jd.1 { b with ammo := b.ammo - 1 },
          interceptors := st.interceptors ++
            [⟨st.nextId, b.x, b.y, b.x, b.y, tx, ty, 10, 0⟩],
          nextId := st.nextId + 1 }
  else st

/-- Removing the element just written by set at the same index is removing the
original element. -/
theorem eraseIdx_set {α : Type} (l : List α) (k : Nat) (a : α) :
    (l.set k a).eraseIdx k = l.eraseIdx k := by
  induction l generalizing k with
  | nil => rfl
  | cons x xs ih =>
    cases k with
    | zero => rfl
    | succ n => simpa [List.set, List.eraseIdx] using ih n

/-- A state predicate preserved by every loop-body step is preserved by the
whole forEach loop. -/
theorem loopGo_pres (step : GState → Nat → GState) (Inv : GState → Prop)
    (h : ∀ s k, Inv s → Inv (step s k)) :
    ∀ (fuel k : Nat) (s : GState), Inv s → Inv (loopGo step s k fuel) := by
  intro fuel
  induction fuel with
  | zero => intro k s hs; exact hs
  | succ n ih => intro k s hs; exact ih (k + 1) (step s k) (h s k hs)

theorem rocketStep_gameState (s : GState) (k : Nat) :
    (rocketStep s k).gameState = s.gameState := by
  unfold rocketStep
  cases h : s.rockets[k]? with
  | none => rfl
  | some r => dsimp only; split <;> rfl

theorem interStep_gameState (s : GState) (k : Nat) :
    (interStep s k).gameState = s.gameState := by
  unfold interStep
  cases h : s.interceptors[k]? with
  | none => rfl
  | some i => dsimp only; split <;> rfl

theorem killStep_gameState (ex ey radius : ℚ) (s : GState) (k : Nat) :
    (killStep ex ey radius s k).gameState = s.gameState := by
  unfold killStep
  cases h : s.rockets[k]? with
  | none => rfl
  | some r => dsimp only; split <;> rfl

theorem expStep_gameState (s : GState) (k : Nat) :
    (expStep s k).gameState = s.gameState := by
  unfold expStep
  cases h : s.explosions[k]? with
  | none => rfl
  | some e =>
    dsimp only
    have hkill := loopGo_pres (killStep (expPhase e).1.x (expPhase e).1.y (expPhase e).1.radius)
      (fun s' => s'.gameState = s.gameState)
      (fun s' k' hs' => by simp only [killStep_gameState]; exact hs')
    split
    next hrem => exact hkill _ 0 _ rfl
    next hrem => exact hkill _ 0 _ rfl

theorem spawnStep_gameState (s : GState) (dt : ℚ) (rnd : SpawnRand) :
    (spawnStep s dt rnd).gameState = s.gameState := by
  unfold spawnStep
  dsimp only
  split
  · split
    · split <;> rfl
    · rfl
  · rfl

/-- The four mutation phases never change the game-state field; only the two
terminal checks at the end of update do. -/
theorem passCore_gameState (s : GState) (dt : ℚ) (rnd : SpawnRand) :
    (passCore s dt rnd).gameState = s.gameState := by
  unfold passCore rocketsPhase intersPhase expsPhase
  have h1 := loopGo_pres rocketStep (fun s' => s'.gameState = s.gameState)
    (fun s' k hs' => by simp only [rocketStep_gameState]; exact hs')
  have h2 := loopGo_pres interStep (fun s' => s'.gameState = s.gameState)
    (fun s' k hs' => by simp only [interStep_gameState]; exact hs')
  have h3 := loopGo_pres expStep (fun s' => s'.gameState = s.gameState)
    (fun s' k hs' => by simp only [expStep_gameState]; exact hs')
  apply h3
  apply h2
  apply h1
  exact (spawnStep_gameState s dt rnd)

/-- C9: while the game state is not PLAYING (START, WON or LOST), both
update(deltaTime) and fireInterceptor(x, y) return the state entirely
unchanged; in particular, once WON or LOST, repeated update calls mutate
nothing until reset. -/
theorem c9_not_playing_noop (st : GState) (dt tx ty : ℚ) (rnd : SpawnRand)
    (h : st.gameState ≠ GameState.PLAYING) :
    update st dt rnd = st ∧ fireInterceptor st tx ty = st := by
  constructor
  · unfold update; rw [if_neg h]
  · unfold fireInterceptor; rw [if_neg h]

/-- Witness for C9 at a concrete WON state. -/
theorem c9_not_playing_noop_witness :
    ({ resetState with gameState := GameState.WON } : GState).gameState ≠ GameState.PLAYING ∧
    update { resetState with gameState := GameState.WON } 16 ⟨0, 0, 0⟩ =
      { resetState with gameState := GameState.WON } ∧
    fireInterceptor { resetState with gameState := GameState.WON } 400 300 =
      { resetState with gameState := GameState.WON } := by
  have h := c9_not_playing_noop { resetState with gameState := GameState.WON }
    16 400 300 ⟨0, 0, 0⟩ (by decide)
  exact ⟨by decide, h.1, h.2⟩

/-- C10: a successful fireInterceptor call appends exactly one interceptor,
with speed 10, progress 0, and start point and initial position both equal to
the firing tower's position; consequently every interceptor's progress
advances by speed / distance(start, target) per tick (speed 10). -/
theorem c10_interceptor_creation (st : GState) (tx ty : ℚ) (j : Nat) (d : ℚ) (b : Tower)
    (hp : st.gameState = GameState.PLAYING)
    (hsel : selectTower st.towers tx ty = some (j, d))
    (hb : st.towers[j]? = some b) :
    (∃ ni : Interceptor,
      (fireInterceptor st tx ty).interceptors = st.interceptors ++ [ni] ∧
      ni.speed = 10 ∧ ni.progress = 0 ∧
      ni.startX = b.x ∧ ni.startY = b.y ∧ ni.x = b.x ∧ ni.y = b.y ∧
      ni.targetX = tx ∧ ni.targetY = ty) ∧
    (∀ i : Interceptor, (advanceInter i).progress =
      i.progress + i.speed / ratSqrt ((i.targetX - i.startX) * (i.targetX - i.startX) +
        (i.targetY - i.startY) * (i.targetY - i.startY))) := by
  constructor
  · refine ⟨⟨st.nextId, b.x, b.y, b.x, b.y, tx, ty, 10, 0⟩, ?_, rfl, rfl, rfl, rfl, rfl, rfl, rfl, rfl⟩
    unfold fireInterceptor
    rw [if_pos hp, hsel]
    dsimp only
    rw [hb]
  · intro i; rfl

/-- Witness for C10: Scenario A — fresh game, fire at (400, 300). -/
theorem c10_interceptor_creation_witness :
    resetState.gameState = GameState.PLAYING ∧
    selectTower resetState.towers 400 300 = some (1, 67600) ∧
    resetState.towers[1]? = some ⟨1, GAME_WIDTH / 2, GAME_HEIGHT - 40, 80, 80, false⟩ ∧
    ∃ ni : Interceptor,
      (fireInterceptor resetState 400 300).interceptors = resetState.interceptors ++ [ni] ∧
      ni.speed = 10 ∧ ni.progress = 0 := by
  have h := c10_interceptor_creation resetState 400 300 1 67600
    ⟨1, GAME_WIDTH / 2, GAME_HEIGHT - 40, 80, 80, false⟩
    (by decide) (by decide) (by decide)
  obtain ⟨⟨ni, hni, hs, hpr, _⟩, _⟩ := h
  exact ⟨by decide, by decide, by decide, ni, hni, hs, hpr⟩

/-- C7: when a rocket's post-advance position has reached its target's y, the
rocket handler creates exactly one explosion at the rocket's target point with
maxRadius 40 and growthRate 2, marks destroyed every city and every tower
strictly within 10 units of the impact point on both axes (and no other), and
removes the rocket from the registry. -/
theorem c7_rocket_arrival (st : GState) (k : Nat) (r : Rocket)
    (hk : st.rockets[k]? = some r)
    (harr : (advanceRocket r).targetY ≤ (advanceRocket r).y) :
    (rocketStep st k).rockets = st.rockets.eraseIdx k ∧
    (rocketStep st k).explosions = st.explosions ++
      [⟨st.nextId, r.targetX, r.targetY, 0, 40, 2, true⟩] ∧
    (rocketStep st k).cities = st.cities.map (damageCity r.targetX r.targetY) ∧
    (rocketStep st k).towers = st.towers.map (damageTower r.targetX r.targetY) ∧
    (∀ c : City, |c.x - r.targetX| < 10 → |c.y - r.targetY| < 10 →
      (damageCity r.targetX r.targetY c).isDestroyed = true) ∧
    (∀ c : City, ¬(|c.x - r.targetX| < 10 ∧ |c.y - r.targetY| < 10) →
      damageCity r.targetX r.targetY c = c) ∧
    (∀ t : Tower, |t.x - r.targetX| < 10 → |t.y - r.targetY| < 10 →
      (damageTower r.targetX r.targetY t).isDestroyed = true) ∧
    (∀ t : Tower, ¬(|t.x - r.targetX| < 10 ∧ |t.y - r.targetY| < 10) →
      damageTower r.targetX r.targetY t = t) := by
  have hstep : rocketStep st k =
      { st with
        rockets := (st.rockets.set k (advanceRocket r)).eraseIdx k,
        explosions := st.explosions ++
          [mkRocketExplosion st.nextId (advanceRocket r).targetX (advanceRocket r).targetY],
        cities := st.cities.map (damageCity (advanceRocket r).targetX (advanceRocket r).targetY),
        towers := st.towers.map (damageTower (advanceRocket r).targetX (advanceRocket r).targetY),
        nextId := st.nextId + 1 } := by
    unfold rocketStep
    rw [hk]
    dsimp only
    rw [if_pos harr]
  have htx : (advanceRocket r).targetX = r.targetX := rfl
  have hty : (advanceRocket r).targetY = r.targetY := rfl
  refine ⟨?_, ?_, ?_, ?_, ?_, ?_, ?_, ?_⟩
  · rw [hstep]; exact eraseIdx_set st.rockets k (advanceRocket r)
  · rw [hstep, htx, hty]; rfl
  · rw [hstep, htx, hty]
  · rw [hstep, htx, hty]
  · intro c h1 h2; unfold damageCity; rw [if_pos ⟨h1, h2⟩]
  · intro c h1; unfold damageCity; rw [if_neg h1]
  · intro t h1 h2; unfold damageTower; rw [if_pos ⟨h1, h2⟩]
  · intro t h1; unfold damageTower; rw [if_neg h1]

/-- Witness for C7: Scenario B — a rocket exactly at city-0's x, arriving at
y = 570 on this pass; the city is within 10 units and gets destroyed. -/
theorem c7_rocket_arrival_witness :
    ([(⟨7, 150, 570, 150, 570, 1, 1/2⟩ : Rocket)] : List Rocket)[0]? =
      some ⟨7, 150, 570, 150, 570, 1, 1/2⟩ ∧
    (advanceRocket ⟨7, 150, 570, 150, 570, 1, 1/2⟩).targetY ≤
      (advanceRocket ⟨7, 150, 570, 150, 570, 1, 1/2⟩).y ∧
    (rocketStep { resetState with rockets := [⟨7, 150, 570, 150, 570, 1, 1/2⟩] } 0).rockets = [] ∧
    ((rocketStep { resetState with rockets := [⟨7, 150, 570, 150, 570, 1, 1/2⟩] } 0).cities.map
      (fun c => c.isDestroyed)) = [true, false, false, false, false, false] := by
  have h := c7_rocket_arrival { resetState with rockets := [⟨7, 150, 570, 150, 570, 1, 1/2⟩] }
    0 ⟨7, 150, 570, 150, 570, 1, 1/2⟩ (by decide) (by decide)
  refine ⟨by decide, by decide, ?_, ?_⟩
  · rw [h.1]; decide
  · rw [h.2.2.1]; decide

/-- A PLAYING state in which the score already equals WIN_SCORE and every
tower is destroyed: both terminal conditions hold in the next pass. -/
def c1State : GState :=
  ⟨GameState.PLAYING, [], [], [],
   INITIAL_TOWERS.map (fun t => { t with isDestroyed := true }),
   INITIAL_CITIES, 1000, 0, 0⟩

/-- C1 counterexample: in a PLAYING pass where, after the explosion-collision
step, the score is at least WIN_SCORE and every tower is destroyed, the state
after the pass is LOST, not WON.  The two checks at the end of update are
independent ifs (no else); both setGameState calls run and the later one —
LOST — wins. -/
theorem c1_counterexample :
    c1State.gameState = GameState.PLAYING ∧
    WIN_SCORE ≤ (passCore c1State 0 ⟨0, 0, 0⟩).score ∧
    allTowersDestroyed (passCore c1State 0 ⟨0, 0, 0⟩).towers = true ∧
    (update c1State 0 ⟨0, 0, 0⟩).gameState = GameState.LOST ∧
    (update c1State 0 ⟨0, 0, 0⟩).gameState ≠ GameState.WON := by
  refine ⟨rfl, by decide, by decide, by decide, by decide⟩

/-- C1 amended: whenever a PLAYING pass ends with every tower destroyed, the
state after the pass is LOST — even when the score seen by the win check is
at least WIN_SCORE; the LOST check runs second and overwrites the WON
transition, so a simultaneous match resolves to LOST, not WON. -/
theorem c1_amended (st : GState) (dt : ℚ) (rnd : SpawnRand)
    (hp : st.gameState = GameState.PLAYING)
    (hd : allTowersDestroyed (passCore st dt rnd).towers = true) :
    (update st dt rnd).gameState = GameState.LOST := by
  unfold update
  rw [if_pos hp]
  by_cases hw : WIN_SCORE ≤ st.score
  · simp only [hw, if_true, hd, if_pos]
  · simp only [hw, if_false, hd, if_pos]

/-- Witness for C1 amended at the concrete two-conditions state. -/
theorem c1_amended_witness :
    c1State.gameState = GameState.PLAYING ∧
    allTowersDestroyed (passCore c1State 16 ⟨0, 0, 0⟩).towers = true ∧
    (update c1State 16 ⟨0, 0, 0⟩).gameState = GameState.LOST := by
  refine ⟨rfl, by decide, c1_amended c1State 16 ⟨0, 0, 0⟩ rfl (by decide)⟩

/-- A PLAYING state with score 980, one live rocket and one expanding
explosion centred exactly on the rocket's post-advance position: the pass
kills the rocket and raises the pending score to 1000. -/
def c2State : GState :=
  ⟨GameState.PLAYING, [⟨100, 400, 100, 400, 580, 1, 0⟩], [],
   [⟨200, 400, 524/5, 30, 40, 2, true⟩],
   INITIAL_TOWERS, INITIAL_CITIES, 980, 0, 0⟩

/-- C2 counterexample: a pass whose kill rewards raise the score from 980 to
1000 (= WIN_SCORE) does not transition to WON on that pass: the terminal
check reads the score captured at pass start (the useState closure value),
not the pending score including this pass's kills, so the state stays
PLAYING. -/
theorem c2_counterexample :
    c2State.gameState = GameState.PLAYING ∧
    c2State.score < WIN_SCORE ∧
    WIN_SCORE ≤ (update c2State 0 ⟨0, 0, 0⟩).score ∧
    (update c2State 0 ⟨0, 0, 0⟩).gameState = GameState.PLAYING := by
  refine ⟨rfl, by decide, by decide, by decide⟩

/-- C2 amended: the terminal check compares WIN_SCORE against the score as of
the start of the pass, excluding that pass's kill rewards: a PLAYING pass
starting below WIN_SCORE never ends WON (whatever its kills), and a PLAYING
pass starting at or above WIN_SCORE ends WON provided not all towers are
destroyed at the end of the pass — so the WON transition triggered by a
threshold-crossing pass happens one pass later. -/
theorem c2_amended (st : GState) (dt : ℚ) (rnd : SpawnRand)
    (hp : st.gameState = GameState.PLAYING) :
    (st.score < WIN_SCORE → (update st dt rnd).gameState ≠ GameState.WON) ∧
    (WIN_SCORE ≤ st.score → allTowersDestroyed (passCore st dt rnd).towers = false →
      (update st dt rnd).gameState = GameState.WON) := by
  constructor
  · intro hlt
    have hw : ¬ WIN_SCORE ≤ st.score := not_le.mpr hlt
    unfold update
    rw [if_pos hp]
    simp only [hw, if_false]
    split
    · intro hcon; exact GameState.noConfusion hcon
    · rw [passCore_gameState, hp]
      intro hcon; exact GameState.noConfusion hcon
  · intro hge hnd
    unfold update
    rw [if_pos hp]
    simp only [hge, if_true, hnd, Bool.false_eq_true, if_false]

/-- Witness for C2 amended: a fresh game (score 0) cannot end WON on the next
pass, and a PLAYING state already at score 1000 with towers alive does. -/
theorem c2_amended_witness :
    resetState.gameState = GameState.PLAYING ∧
    resetState.score < WIN_SCORE ∧
    (update resetState 16 ⟨0, 0, 0⟩).gameState ≠ GameState.WON ∧
    WIN_SCORE ≤ ({ resetState with score := 1000 } : GState).score ∧
    allTowersDestroyed (passCore { resetState with score := 1000 } 16 ⟨0, 0, 0⟩).towers = false ∧
    (update { resetState with score := 1000 } 16 ⟨0, 0, 0⟩).gameState = GameState.WON := by
  refine ⟨rfl, by decide, (c2_amended resetState 16 ⟨0, 0, 0⟩ rfl).1 (by decide),
    by decide, by decide,
    (c2_amended { resetState with score := 1000 } 16 ⟨0, 0, 0⟩ rfl).2 (by decide) (by decide)⟩

/-- Invariant of the tower-selection scan after the prefix seen has been
visited: none means no eligible tower was seen; some (j, d) means index j of
the seen prefix holds an eligible tower at squared distance d, d is minimal
among the eligible seen towers, and strictly below every eligible tower
before j (first of several equidistant towers wins). -/
def SelInv (tx ty : ℚ) (seen : List Tower) : Option (Nat × ℚ) → Prop
  | none => ∀ t ∈ seen, eligB t = false
  | some jd => ∃ h : jd.1 < seen.length,
      eligB seen[jd.1] = true ∧ jd.2 = dSq tx ty seen[jd.1] ∧
      ∀ k, (hk : k < seen.length) → eligB seen[k] = true →
        jd.2 ≤ dSq tx ty seen[k] ∧ (k < jd.1 → jd.2 < dSq tx ty seen[k])

/-- Taking the newly seen tower as the best-so-far preserves the scan
invariant, provided it is eligible and strictly beats every eligible tower
seen so far. -/
theorem selInv_take (tx ty : ℚ) (pre : List Tower) (t : Tower)
    (helig : eligB t = true)
    (hbeats : ∀ k, (hk : k < pre.length) → eligB pre[k] = true →
      dSq tx ty t < dSq tx ty pre[k]) :
    SelInv tx ty (pre ++ [t]) (some (pre.length, dSq tx ty t)) := by
  have hlen : pre.length < (pre ++ [t]).length := by simp
  have hget : ((pre ++ [t]) : List Tower)[pre.length] = t := by simp
  refine ⟨by simp, ?_, ?_, ?_⟩
  · rw [hget]; exact helig
  · rw [hget]
  · intro k hk hkelig
    have hk' : k < pre.length + 1 := by simpa using hk
    rcases Nat.lt_succ_iff_lt_or_eq.mp hk' with hlt | heq
    · have hgetk : ((pre ++ [t]) : List Tower)[k] = pre[k] :=
        List.getElem_append_left hlt
      rw [hgetk] at hkelig ⊢
      exact ⟨le_of_lt (hbeats k hlt hkelig), fun _ => hbeats k hlt hkelig⟩
    · subst heq
      rw [hget] at hkelig ⊢
      exact ⟨le_refl _, fun hcon => absurd hcon (lt_irrefl _)⟩

/-- Keeping the accumulator while seeing one more tower preserves the scan
invariant, provided the new tower does not strictly beat it. -/
theorem selInv_keep (tx ty : ℚ) (pre : List Tower) (t : Tower) (p : Nat × ℚ)
    (hacc : SelInv tx ty pre (some p))
    (hnotbeat : eligB t = true → p.2 ≤ dSq tx ty t) :
    SelInv tx ty (pre ++ [t]) (some p) := by
  obtain ⟨hj, hje, hjd, hjmin⟩ := hacc
  have hj' : p.1 < (pre ++ [t]).length := by
    simp only [List.length_append, List.length_singleton]
    exact Nat.lt_succ_of_lt hj
  have hgetj : ((pre ++ [t]) : List Tower)[p.1] = pre[p.1] :=
    List.getElem_append_left hj
  refine ⟨hj', ?_, ?_, ?_⟩
  · rw [hgetj]; exact hje
  · rw [hgetj]; exact hjd
  · intro k hk hkelig
    have hk' : k < pre.length + 1 := by simpa using hk
    rcases Nat.lt_succ_iff_lt_or_eq.mp hk' with hlt | heq
    · have hgetk : ((pre ++ [t]) : List Tower)[k] = pre[k] :=
        List.getElem_append_left hlt
      rw [hgetk] at hkelig ⊢
      exact hjmin k hlt hkelig
    · subst heq
      have hlen : pre.length < (pre ++ [t]).length := by simp
      have hget : ((pre ++ [t]) : List Tower)[pre.length] = t := by simp
      rw [hget] at hkelig ⊢
      exact ⟨hnotbeat hkelig,
        fun hcon => absurd hcon (Nat.not_lt.mpr (le_of_lt hj))⟩

theorem selectGo_inv (tx ty : ℚ) :
    ∀ (suf pre : List Tower) (acc : Option (Nat × ℚ)),
      SelInv tx ty pre acc →
      SelInv tx ty (pre ++ suf) (selectGo tx ty suf pre.length acc) := by
  intro suf
  induction suf with
  | nil => intro pre acc h; simpa [selectGo] using h
  | cons t ts ih =>
    intro pre acc hacc
    simp only [selectGo]
    have hsplit : pre ++ t :: ts = (pre ++ [t]) ++ ts := by simp
    have hlen : pre.length + 1 = (pre ++ [t]).length := by simp
    cases acc with
    | none =>
      cases helig : eligB t with
      | true =>
        rw [if_pos (by simp [helig]), hsplit, hlen]
        apply ih
        apply selInv_take tx ty pre t helig
        intro k hk hkelig
        exact absurd (hacc pre[k] (List.getElem_mem hk)) (by simp [hkelig])
      | false =>
        rw [if_neg (by simp [helig]), hsplit, hlen]
        apply ih
        intro u hu
        rcases List.mem_append.mp hu with hu | hu
        · exact hacc u hu
        · simp only [List.mem_singleton] at hu; rw [hu]; exact helig
    | some p =>
      by_cases hc : (eligB t && decide (dSq tx ty t < p.2)) = true
      · rw [if_pos hc, hsplit, hlen]
        apply ih
        obtain ⟨helig, hbeat⟩ : eligB t = true ∧ dSq tx ty t < p.2 := by
          simpa using hc
        apply selInv_take tx ty pre t helig
        intro k hk hkelig
        obtain ⟨hj, hje, hjd, hjmin⟩ := hacc
        exact lt_of_lt_of_le hbeat (hjmin k hk hkelig).1
      · rw [if_neg hc, hsplit, hlen]
        apply ih
        apply selInv_keep tx ty pre t p hacc
        intro hkelig
        have hnlt : ¬ dSq tx ty t < p.2 := by
          intro hcon
          exact hc (by simp [hkelig, hcon])
        exact le_of_not_lt hnlt

/-- The selection result satisfies the scan invariant over the whole list. -/
theorem selectTower_inv (ts : List Tower) (tx ty : ℚ) :
    SelInv tx ty ts (selectTower ts tx ty) := by
  have h := selectGo_inv tx ty ts [] none (by intro t ht; cases ht)
  simpa [selectTower] using h

/-- A successful selection returns a valid index. -/
theorem selectTower_some_lt (ts : List Tower) (tx ty : ℚ) (j : Nat) (d : ℚ)
    (h : selectTower ts tx ty = some (j, d)) : j < ts.length := by
  have hinv := selectTower_inv ts tx ty
  rw [h] at hinv
  exact hinv.1

/-- C5: with at least one eligible tower (not destroyed, ammo > 0), the tower
fireInterceptor fires from is the eligible tower of minimal Euclidean
distance to the target (minimal squared distance, equivalently, since sqrt is
strictly monotone on nonnegatives), ties between exactly equidistant eligible
towers resolving to the earliest in registration order; ineligible nearer
towers are skipped. -/
theorem c5_tower_selection (st : GState) (tx ty : ℚ) (t0 : Tower)
    (hp : st.gameState = GameState.PLAYING)
    (ht0 : t0 ∈ st.towers) (he : eligB t0 = true) :
    ∃ j d, selectTower st.towers tx ty = some (j, d) ∧
      ∃ hj : j < st.towers.length,
        eligB st.towers[j] = true ∧
        d = dSq tx ty st.towers[j] ∧
        (∀ k, (hk : k < st.towers.length) → eligB st.towers[k] = true →
          d ≤ dSq tx ty st.towers[k] ∧ (k < j → d < dSq tx ty st.towers[k])) ∧
        (fireInterceptor st tx ty).towers =
          st.towers.set j { st.towers[j] with ammo := st.towers[j].ammo - 1 } := by
  have hinv := selectTower_inv st.towers tx ty
  cases hsel : selectTower st.towers tx ty with
  | none =>
    rw [hsel] at hinv
    exact absurd (hinv t0 ht0) (by simp [he])
  | some jd =>
    obtain ⟨j, d⟩ := jd
    rw [hsel] at hinv
    obtain ⟨hj, hje, hjd, hjmin⟩ := hinv
    refine ⟨j, d, rfl, hj, hje, hjd, hjmin, ?_⟩
    unfold fireInterceptor
    rw [if_pos hp, hsel]
    dsimp only
    rw [List.getElem?_eq_getElem hj]

/-- Witness for C5: Scenario A — fresh game, fire at (400, 300); the centre
tower (index 1, x = 400) is strictly nearest and fires. -/
theorem c5_tower_selection_witness :
    resetState.gameState = GameState.PLAYING ∧
    (⟨0, 50, GAME_HEIGHT - 40, 40, 40, false⟩ : Tower) ∈ resetState.towers ∧
    eligB ⟨0, 50, GAME_HEIGHT - 40, 40, 40, false⟩ = true ∧
    ∃ j d, selectTower resetState.towers 400 300 = some (j, d) := by
  have h := c5_tower_selection resetState 400 300
    ⟨0, 50, GAME_HEIGHT - 40, 40, 40, false⟩ rfl (by decide) (by decide)
  obtain ⟨j, d, hsel, _⟩ := h
  exact ⟨rfl, by decide, by decide, j, d, hsel⟩

/-- A sequence of fire requests, applied left to right. -/
def fireSeq (st : GState) (reqs : List (ℚ × ℚ)) : GState :=
  reqs.foldl (fun s r => fireInterceptor s r.1 r.2) st

/-- One fireInterceptor call keeps every tower's ammo nonnegative. -/
theorem fire_ammo_nonneg (st : GState) (tx ty : ℚ)
    (h : ∀ t ∈ st.towers, 0 ≤ t.ammo) :
    ∀ t ∈ (fireInterceptor st tx ty).towers, 0 ≤ t.ammo := by
  unfold fireInterceptor
  split
  case isFalse => exact h
  case isTrue hp =>
    cases hsel : selectTower st.towers tx ty with
    | none => exact h
    | some jd =>
      obtain ⟨j, d⟩ := jd
      have hinv := selectTower_inv st.towers tx ty
      rw [hsel] at hinv
      obtain ⟨hj, hje, hjd, hjmin⟩ := hinv
      dsimp only
      rw [List.getElem?_eq_getElem hj]
      dsimp only
      intro t ht
      rcases List.mem_or_eq_of_mem_set ht with hmem | heq
      · exact h t hmem
      · rw [heq]
        dsimp only
        have hpos : 0 < st.towers[j].ammo := by
          have := hje
          unfold eligB at this
          simp only [Bool.and_eq_true, decide_eq_true_eq] at this
          exact this.1
        omega

/-- C6: over every sequence of fire requests every tower's ammo stays
nonnegative; a successful fire decrements exactly the selected tower's ammo
by exactly 1 (others unchanged, via List.set) and appends exactly one
interceptor; and with no eligible tower the call is a complete no-op. -/
theorem c6_ammo_conservation (st : GState) (tx ty : ℚ) (reqs : List (ℚ × ℚ)) :
    ((∀ t ∈ st.towers, 0 ≤ t.ammo) → ∀ t ∈ (fireSeq st reqs).towers, 0 ≤ t.ammo) ∧
    (∀ j d, st.gameState = GameState.PLAYING →
      selectTower st.towers tx ty = some (j, d) →
      ∃ hj : j < st.towers.length,
        0 < st.towers[j].ammo ∧
        (fireInterceptor st tx ty).towers =
          st.towers.set j { st.towers[j] with ammo := st.towers[j].ammo - 1 } ∧
        (fireInterceptor st tx ty).interceptors = st.interceptors ++
          [⟨st.nextId, st.towers[j].x, st.towers[j].y, st.towers[j].x, st.towers[j].y,
            tx, ty, 10, 0⟩] ∧
        (fireInterceptor st tx ty).rockets = st.rockets ∧
        (fireInterceptor st tx ty).explosions = st.explosions ∧
        (fireInterceptor st tx ty).cities = st.cities ∧
        (fireInterceptor st tx ty).score = st.score ∧
        (fireInterceptor st tx ty).gameState = st.gameState) ∧
    ((∀ t ∈ st.towers, eligB t = false) → fireInterceptor st tx ty = st) := by
  refine ⟨?_, ?_, ?_⟩
  · intro h0
    unfold fireSeq
    induction reqs generalizing st with
    | nil => exact h0
    | cons r rs ih =>
      simp only [List.foldl_cons]
      exact ih (fireInterceptor st r.1 r.2) (fire_ammo_nonneg st r.1 r.2 h0)
  · intro j d hp hsel
    have hinv := selectTower_inv st.towers tx ty
    rw [hsel] at hinv
    obtain ⟨hj, hje, hjd, hjmin⟩ := hinv
    have hpos : 0 < st.towers[j].ammo := by
      have := hje
      unfold eligB at this
      simp only [Bool.and_eq_true, decide_eq_true_eq] at this
      exact this.1
    have hfire : fireInterceptor st tx ty =
        { st with
          towers := st.towers.set j { st.towers[j] with ammo := st.towers[j].ammo - 1 },
          interceptors := st.interceptors ++
            [⟨st.nextId, st.towers[j].x, st.towers[j].y, st.towers[j].x, st.towers[j].y,
              tx, ty, 10, 0⟩],
          nextId := st.nextId + 1 } := by
      unfold fireInterceptor
      rw [if_pos hp, hsel]
      dsimp only
      rw [List.getElem?_eq_getElem hj]
    exact ⟨hj, hpos, by rw [hfire], by rw [hfire], by rw [hfire], by rw [hfire],
      by rw [hfire], by rw [hfire], by rw [hfire]⟩
  · intro hnone
    unfold fireInterceptor
    split
    case isFalse => rfl
    case isTrue hp =>
      cases hsel : selectTower st.towers tx ty with
      | none => rfl
      | some jd =>
        have hinv := selectTower_inv st.towers tx ty
        rw [hsel] at hinv
        obtain ⟨hj, hje, _, _⟩ := hinv
        exact absurd (hnone st.towers[jd.1] (List.getElem_mem hj)) (by simp [hje])

/-- Witness for C6: Scenario A firing once from the fresh state (centre tower
80 → 79), and the no-eligible case on a state whose towers are all destroyed. -/
theorem c6_ammo_conservation_witness :
    (∀ t ∈ resetState.towers, 0 ≤ t.ammo) ∧
    (∀ t ∈ (fireSeq resetState [(400, 300)]).towers, 0 ≤ t.ammo) ∧
    (∃ hj : (1 : Nat) < resetState.towers.length,
      0 < resetState.towers[1].ammo ∧
      (fireInterceptor resetState 400 300).towers =
        resetState.towers.set 1
          { resetState.towers[1] with ammo := resetState.towers[1].ammo - 1 }) ∧
    (∀ t ∈ c1State.towers, eligB t = false) ∧
    fireInterceptor c1State 400 300 = c1State := by
  have h1 := (c6_ammo_conservation resetState 400 300 [(400, 300)]).1 (by decide)
  have h2 := (c6_ammo_conservation resetState 400 300 [(400, 300)]).2.1 1 67600 rfl (by decide)
  have h3 := (c6_ammo_conservation c1State 400 300 []).2.2 (by decide)
  obtain ⟨hj, hpos, hset, _⟩ := h2
  exact ⟨by decide, h1, ⟨hj, hpos, hset⟩, by decide, h3⟩

/-- The explosion invariant the code actually maintains: positive growth
rate, nonnegative radius, radius strictly below maxRadius + growthRate, and,
while still expanding, radius strictly below maxRadius. -/
def ExpInv (e : Explosion) : Prop :=
  0 < e.growthRate ∧ 0 ≤ e.radius ∧ e.radius < e.maxRadius + e.growthRate ∧
    (e.isExpanding = true → e.radius < e.maxRadius)

theorem expInv_mkRocket (id : Nat) (x y : ℚ) : ExpInv (mkRocketExplosion id x y) := by
  unfold ExpInv mkRocketExplosion
  norm_num

theorem expInv_mkInter (id : Nat) (x y : ℚ) : ExpInv (mkInterExplosion id x y) := by
  unfold ExpInv mkInterExplosion
  norm_num

/-- One phase step preserves the explosion invariant on survivors. -/
theorem expPhase_inv (e : Explosion) (h : ExpInv e) (hsurv : (expPhase e).2 = false) :
    ExpInv (expPhase e).1 := by
  obtain ⟨hg, hr0, hrb, hexp⟩ := h
  unfold expPhase at hsurv ⊢
  by_cases he : e.isExpanding = true
  · rw [if_pos he] at hsurv ⊢
    dsimp only
    have hrm : e.radius < e.maxRadius := hexp he
    refine ⟨hg, add_nonneg hr0 (le_of_lt hg), add_lt_add_right hrm e.growthRate, ?_⟩
    intro h'
    by_cases hflip : e.maxRadius ≤ e.radius + e.growthRate
    · rw [if_pos hflip] at h'
      exact absurd h' (by simp)
    · exact not_le.mp hflip
  · rw [if_neg he] at hsurv ⊢
    dsimp only at hsurv ⊢
    have hpos : ¬ (e.radius - e.growthRate * (1/2) ≤ 0) := by simpa using hsurv
    have hhalf : 0 < e.growthRate * (1/2) := by positivity
    refine ⟨hg, le_of_lt (not_le.mp hpos), ?_, ?_⟩
    · calc e.radius - e.growthRate * (1/2) < e.radius := by linarith
        _ < e.maxRadius + e.growthRate := hrb
    · intro h'
      exact absurd h' he

theorem killStep_explosions (ex ey radius : ℚ) (s : GState) (k : Nat) :
    (killStep ex ey radius s k).explosions = s.explosions := by
  unfold killStep
  cases h : s.rockets[k]? with
  | none => rfl
  | some r => dsimp only; split <;> rfl

/-- A list element of the set-then-erase at the same index is an element of
the original list. -/
theorem mem_of_mem_set_eraseIdx {α : Type} {l : List α} {k : Nat} {v a : α}
    (h : a ∈ (l.set k v).eraseIdx k) : a ∈ l := by
  rw [eraseIdx_set] at h
  exact (List.eraseIdx_sublist l k).mem h

theorem rocketStep_expInv (s : GState) (k : Nat)
    (h : ∀ e ∈ s.explosions, ExpInv e) :
    ∀ e ∈ (rocketStep s k).explosions, ExpInv e := by
  unfold rocketStep
  cases hk : s.rockets[k]? with
  | none => exact h
  | some r =>
    dsimp only
    split
    · intro e he
      rcases List.mem_append.mp he with he | he
      · exact h e he
      · simp only [List.mem_singleton] at he
        subst he
        exact expInv_mkRocket _ _ _
    · exact h

theorem interStep_expInv (s : GState) (k : Nat)
    (h : ∀ e ∈ s.explosions, ExpInv e) :
    ∀ e ∈ (interStep s k).explosions, ExpInv e := by
  unfold interStep
  cases hk : s.interceptors[k]? with
  | none => exact h
  | some i0 =>
    dsimp only
    split
    · intro e he
      rcases List.mem_append.mp he with he | he
      · exact h e he
      · simp only [List.mem_singleton] at he
        subst he
        exact expInv_mkInter _ _ _
    · exact h

theorem expStep_expInv (s : GState) (k : Nat)
    (h : ∀ e ∈ s.explosions, ExpInv e) :
    ∀ e ∈ (expStep s k).explosions, ExpInv e := by
  unfold expStep
  cases hk : s.explosions[k]? with
  | none => exact h
  | some e0 =>
    have he0 : e0 ∈ s.explosions := by
      have hlt : k < s.explosions.length := by
        by_contra hge
        rw [List.getElem?_eq_none (Nat.le_of_not_lt hge)] at hk
        exact Option.noConfusion hk
      have := List.getElem?_eq_getElem hlt
      rw [hk] at this
      have heq : s.explosions[k] = e0 := by
        injection this.symm
      rw [← heq]
      exact List.getElem_mem hlt
    dsimp only
    have hpres := loopGo_pres
      (killStep (expPhase e0).1.x (expPhase e0).1.y (expPhase e0).1.radius)
      (fun s' => ∀ e ∈ s'.explosions, ExpInv e)
      (fun s' k' hs' => by simp only [killStep_explosions]; exact hs')
    split
    next hrem =>
      apply hpres
      intro e he
      dsimp only at he
      exact h e (mem_of_mem_set_eraseIdx he)
    next hrem =>
      apply hpres
      intro e he
      dsimp only at he
      rcases List.mem_or_eq_of_mem_set he with hmem | heq
      · exact h e hmem
      · subst heq
        apply expPhase_inv e0 (h e0 he0)
        revert hrem
        cases (expPhase e0).2 with
        | false => intro _; rfl
        | true => intro hrem; exact absurd rfl hrem

theorem spawnStep_explosions (s : GState) (dt : ℚ) (rnd : SpawnRand) :
    (spawnStep s dt rnd).explosions = s.explosions := by
  unfold spawnStep
  dsimp only
  split
  · split
    · split <;> rfl
    · rfl
  · rfl

/-- C3 amended: at every point of an explosion's observable lifetime,
0 ≤ radius < maxRadius + growthRate — the radius may overshoot maxRadius by
less than growthRate on the flipping pass (e.g. maxRadius 50, growthRate 1.5
reaches 51) — and the phase flips from Expanding to Contracting exactly once,
namely on the first pass on which the grown radius reaches at least
maxRadius (not necessarily exactly maxRadius), never flipping back.  The
invariant is preserved by a full update pass (including the explosions it
creates), and both creation sites start explosions expanding at radius 0. -/
theorem c3_amended (st : GState) (dt : ℚ) (rnd : SpawnRand)
    (h : ∀ e ∈ st.explosions, ExpInv e) :
    (∀ e ∈ (update st dt rnd).explosions, ExpInv e) ∧
    (∀ e : Explosion, e.isExpanding = false → (expPhase e).1.isExpanding = false) ∧
    (∀ e : Explosion, e.isExpanding = true →
      ((expPhase e).1.isExpanding = false ↔ e.maxRadius ≤ e.radius + e.growthRate)) ∧
    (∀ id x y, (mkRocketExplosion id x y).isExpanding = true ∧
      (mkRocketExplosion id x y).radius = 0 ∧
      (mkInterExplosion id x y).isExpanding = true ∧
      (mkInterExplosion id x y).radius = 0) := by
  refine ⟨?_, ?_, ?_, ?_⟩
  · unfold update
    split
    case isFalse => exact h
    case isTrue hp =>
      have hcore : ∀ e ∈ (passCore st dt rnd).explosions, ExpInv e := by
        unfold passCore rocketsPhase intersPhase expsPhase
        have h1 := loopGo_pres rocketStep (fun s' => ∀ e ∈ s'.explosions, ExpInv e)
          (fun s' k hs' => by exact rocketStep_expInv s' k hs')
        have h2 := loopGo_pres interStep (fun s' => ∀ e ∈ s'.explosions, ExpInv e)
          (fun s' k hs' => by exact interStep_expInv s' k hs')
        have h3 := loopGo_pres expStep (fun s' => ∀ e ∈ s'.explosions, ExpInv e)
          (fun s' k hs' => by exact expStep_expInv s' k hs')
        apply h3
        apply h2
        apply h1
        rw [spawnStep_explosions]
        exact h
      dsimp only
      split <;> split <;> exact hcore
  · intro e he
    unfold expPhase
    rw [if_neg (by simp [he])]
    exact he
  · intro e he
    unfold expPhase
    rw [if_pos he]
    dsimp only
    constructor
    · intro hflip
      by_contra hnot
      rw [if_neg hnot] at hflip
      rw [he] at hflip
      exact Bool.noConfusion hflip
    · intro hge
      rw [if_pos hge]
  · intro id x y
    exact ⟨rfl, rfl, rfl, rfl⟩

/-- A PLAYING state holding one freshly created interceptor explosion
(radius 0, maxRadius 50, growthRate 1.5). -/
def c3State : GState :=
  ⟨GameState.PLAYING, [], [], [mkInterExplosion 0 400 300],
   INITIAL_TOWERS, INITIAL_CITIES, 0, 0, 0⟩

/-- One idle update pass (no spawn, nothing but the explosion evolving). -/
def c3Tick (s : GState) : GState := update s 0 ⟨0, 0, 0⟩

/-- C3 counterexample: iterating update from the creation of an interceptor
explosion, pass 33 leaves it Expanding at radius 49.5 < 50 and pass 34 flips
it to Contracting at radius 51 — so the radius exceeds maxRadius = 50, and the
flip happens at radius 51 ≠ maxRadius, refuting both radius ≤ maxRadius and
the flip-at-equality part of the claim. -/
theorem c3_counterexample :
    (c3Tick^[33] c3State).explosions.map
      (fun e => (e.radius, e.maxRadius, e.isExpanding)) = [(99/2, 50, true)] ∧
    (c3Tick^[34] c3State).explosions.map
      (fun e => (e.radius, e.maxRadius, e.isExpanding)) = [(51, 50, false)] ∧
    ¬ ((51 : ℚ) ≤ 50) := by
  refine ⟨by decide, by decide, by decide⟩

/-- Witness for C3 amended at the fresh-explosion state. -/
theorem c3_amended_witness :
    (∀ e ∈ c3State.explosions, ExpInv e) ∧
    (∀ e ∈ (update c3State 0 ⟨0, 0, 0⟩).explosions, ExpInv e) := by
  have hh : ∀ e ∈ c3State.explosions, ExpInv e := by
    intro e he
    simp only [c3State, List.mem_singleton] at he
    subst he
    exact expInv_mkInter 0 400 300
  exact ⟨hh, (c3_amended c3State 0 ⟨0, 0, 0⟩ hh).1⟩

/-- Minimal JavaScript (IEEE-754 double) number semantics: a finite value, a
signed infinity, or NaN — exactly what the interceptor advance step can
produce when the start-to-target distance is zero (10 / 0 = Infinity,
0 * Infinity = NaN).  The operations below implement the ECMAScript Number
rules for every operand combination reachable in that step: positive / 0 =
+Infinity, finite + Infinity = Infinity, 0 * Infinity = NaN, NaN absorbs,
and every comparison involving NaN is false. -/
inductive JNum where
  | fin (q : ℚ)
  | posInf
  | negInf
  | nan
deriving DecidableEq

def jadd : JNum → JNum → JNum
  | .nan, _ => .nan
  | _, .nan => .nan
  | .fin a, .fin b => .fin (a + b)
  | .fin _, .posInf => .posInf
  | .fin _, .negInf => .negInf
  | .posInf, .fin _ => .posInf
  | .negInf, .fin _ => .negInf
  | .posInf, .posInf => .posInf
  | .negInf, .negInf => .negInf
  | .posInf, .negInf => .nan
  | .negInf, .posInf => .nan

def jsub : JNum → JNum → JNum
  | .nan, _ => .nan
  | _, .nan => .nan
  | .fin a, .fin b => .fin (a - b)
  | .fin _, .posInf => .negInf
  | .fin _, .negInf => .posInf
  | .posInf, .fin _ => .posInf
  | .negInf, .fin _ => .negInf
  | .posInf, .posInf => .nan
  | .negInf, .negInf => .nan
  | .posInf, .negInf => .posInf
  | .negInf, .posInf => .negInf

def jmul : JNum → JNum → JNum
  | .nan, _ => .nan
  | _, .nan => .nan
  | .fin a, .fin b => .fin (a * b)
  | .fin a, .posInf => if 0 < a then .posInf else if a < 0 then .negInf else .nan
  | .posInf, .fin a => if 0 < a then .posInf else if a < 0 then .negInf else .nan
  | .fin a, .negInf => if 0 < a then .negInf else if a < 0 then .posInf else .nan
  | .negInf, .fin a => if 0 < a then .negInf else if a < 0 then .posInf else .nan
  | .posInf, .posInf => .posInf
  | .negInf, .negInf => .posInf
  | .posInf, .negInf => .negInf
  | .negInf, .posInf => .negInf

def jdiv : JNum → JNum → JNum
  | .nan, _ => .nan
  | _, .nan => .nan
  | .fin a, .fin b =>
    if b = 0 then
      if 0 < a then .posInf else if a < 0 then .negInf else .nan
    else .fin (a / b)
  | .fin _, .posInf => .fin 0
  | .fin _, .negInf => .fin 0
  | .posInf, .fin b => if 0 ≤ b then .posInf else .negInf
  | .negInf, .fin b => if 0 ≤ b then .negInf else .posInf
  | .posInf, _ => .nan
  | .negInf, _ => .nan

def jsqrt : JNum → JNum
  | .fin q => if q < 0 then .nan else .fin (ratSqrt q)
  | .posInf => .posInf
  | _ => .nan

/-- IEEE >= comparison: false whenever either side is NaN. -/
def jge : JNum → JNum → Bool
  | .nan, _ => false
  | _, .nan => false
  | .fin a, .fin b => decide (b ≤ a)
  | .posInf, _ => true
  | .fin _, .posInf => false
  | .negInf, .posInf => false
  | .fin _, .negInf => true
  | .negInf, .fin _ => false
  | .negInf, .negInf => true

/-- Interceptor with JavaScript-number fields, for the float-semantics model
of the advance step. -/
structure JInter where
  startX : JNum
  startY : JNum
  x : JNum
  y : JNum
  targetX : JNum
  targetY : JNum
  speed : JNum
  progress : JNum
deriving DecidableEq

/-- The interceptor advance and arrival test (App.tsx lines 172-181) under
JavaScript float semantics: progress += speed / sqrt(dx² + dy²), position is
start + delta * progress, and the interceptor detonates (is spliced out,
leaving an explosion at its target) when progress >= 1. -/
def advanceInterJS (i : JInter) : JInter × Bool :=
  let dx := jsub i.targetX i.startX
  let dy := jsub i.targetY i.startY
  let dist := jsqrt (jadd (jmul dx dx) (jmul dy dy))
  let p := jadd i.progress (jdiv i.speed dist)
  let nx := jadd i.startX (jmul dx p)
  let ny := jadd i.startY (jmul dy p)
  (⟨i.startX, i.startY, nx, ny, i.targetX, i.targetY, i.speed, p⟩, jge p (.fin 1))

/-- The concrete zero-distance interceptor of the counterexample: fired at
the tower's own position, so start = position = target = (400, 300). -/
def c8Inter : JInter :=
  ⟨.fin 400, .fin 300, .fin 400, .fin 300, .fin 400, .fin 300, .fin 10, .fin 0⟩

/-- C8 counterexample: for a zero-distance interceptor the source's update
(App.tsx lines 172-181) does NOT set progress = 1; speed / 0 evaluates to
+Infinity, so the stored progress is the non-finite +∞ and the stored
position is NaN on both axes — the interceptor is removed that pass only
because Infinity >= 1 passes the arrival check. -/
theorem c8_counterexample :
    (advanceInterJS c8Inter).2 = true ∧
    (advanceInterJS c8Inter).1.progress = JNum.posInf ∧
    (advanceInterJS c8Inter).1.progress ≠ JNum.fin 1 ∧
    (advanceInterJS c8Inter).1.x = JNum.nan ∧
    (advanceInterJS c8Inter).1.y = JNum.nan := by
  refine ⟨by decide, by decide, by decide, by decide, by decide⟩

/-- C8 amended: a zero-distance interceptor (target point equal to start
point) with positive finite speed is treated as arrived on its first advance
— the progress >= 1 test passes and it detonates at its target, which is why
the update never divides by zero on it again — but through progress becoming
the non-finite +Infinity (and the position becoming NaN on both axes), not
through any guard setting progress to 1: the stored progress equals no finite
value at all. -/
theorem c8_zero_distance (sx sy px py s p : ℚ) (hs : 0 < s) :
    (advanceInterJS ⟨.fin sx, .fin sy, .fin px, .fin py, .fin sx, .fin sy,
      .fin s, .fin p⟩).2 = true ∧
    (advanceInterJS ⟨.fin sx, .fin sy, .fin px, .fin py, .fin sx, .fin sy,
      .fin s, .fin p⟩).1.progress = JNum.posInf ∧
    (advanceInterJS ⟨.fin sx, .fin sy, .fin px, .fin py, .fin sx, .fin sy,
      .fin s, .fin p⟩).1.x = JNum.nan ∧
    (advanceInterJS ⟨.fin sx, .fin sy, .fin px, .fin py, .fin sx, .fin sy,
      .fin s, .fin p⟩).1.y = JNum.nan ∧
    (∀ q : ℚ, (advanceInterJS ⟨.fin sx, .fin sy, .fin px, .fin py, .fin sx, .fin sy,
      .fin s, .fin p⟩).1.progress ≠ JNum.fin q) := by
  have hr0 : ratSqrt 0 = 0 := by decide
  have hdx : jsub (.fin sx) (.fin sx) = .fin 0 := by simp [jsub]
  have hdy : jsub (.fin sy) (.fin sy) = .fin 0 := by simp [jsub]
  have hmul0 : jmul (.fin 0) (.fin 0) = .fin 0 := by simp [jmul]
  have hadd0 : jadd (.fin 0) (.fin 0) = .fin 0 := by simp [jadd]
  have hsqrt0 : jsqrt (.fin 0) = .fin 0 := by
    unfold jsqrt
    dsimp only
    rw [if_neg (lt_irrefl 0), hr0]
  have hdiv : jdiv (.fin s) (.fin 0) = .posInf := by
    unfold jdiv
    dsimp only
    rw [if_pos rfl, if_pos hs]
  have haddInf : jadd (.fin p) .posInf = .posInf := rfl
  have hmulInf : jmul (.fin 0) .posInf = .nan := by
    unfold jmul
    dsimp only
    rw [if_neg (lt_irrefl 0), if_neg (lt_irrefl 0)]
  have haddNan : ∀ a, jadd a .nan = .nan := by intro a; cases a <;> rfl
  have key : advanceInterJS ⟨.fin sx, .fin sy, .fin px, .fin py, .fin sx, .fin sy,
      .fin s, .fin p⟩ =
      (⟨.fin sx, .fin sy, .nan, .nan, .fin sx, .fin sy, .fin s, .posInf⟩, true) := by
    unfold advanceInterJS
    simp only [hdx, hdy, hmul0, hadd0, hsqrt0, hdiv, haddInf, hmulInf, haddNan]
    rfl
  rw [key]
  exact ⟨rfl, rfl, rfl, rfl, fun q hcon => JNum.noConfusion hcon⟩

/-- Witness for C8 amended at the concrete zero-distance interceptor. -/
theorem c8_zero_distance_witness :
    (0 : ℚ) < 10 ∧
    (advanceInterJS ⟨.fin 400, .fin 300, .fin 400, .fin 300, .fin 400, .fin 300,
      .fin 10, .fin 0⟩).2 = true ∧
    (advanceInterJS ⟨.fin 400, .fin 300, .fin 400, .fin 300, .fin 400, .fin 300,
      .fin 10, .fin 0⟩).1.progress = JNum.posInf ∧
    (advanceInterJS ⟨.fin 400, .fin 300, .fin 400, .fin 300, .fin 400, .fin 300,
      .fin 10, .fin 0⟩).1.progress ≠ JNum.fin 1 := by
  have h := c8_zero_distance 400 300 400 300 10 0 (by norm_num)
  exact ⟨by norm_num, h.1, h.2.1, h.2.2.2.2 1⟩

theorem take_set {α : Type} (l : List α) (k : Nat) (v : α) :
    (l.set k v).take k = l.take k := by
  induction l generalizing k with
  | nil => rfl
  | cons x xs ih =>
    cases k with
    | zero => rfl
    | succ n => simp only [List.set, List.take_succ_cons]; rw [ih]

theorem take_succ_set {α : Type} (l : List α) (k : Nat) (v : α) (h : k < l.length) :
    (l.set k v).take (k + 1) = l.take k ++ [v] := by
  induction l generalizing k with
  | nil => cases h
  | cons x xs ih =>
    cases k with
    | zero => rfl
    | succ n =>
      simp only [List.set, List.take_succ_cons]
      rw [ih]
      · rfl
      · simpa using h

theorem drop_succ_set {α : Type} (l : List α) (k : Nat) (v : α) :
    (l.set k v).drop (k + 1) = l.drop (k + 1) := by
  induction l generalizing k with
  | nil => rfl
  | cons x xs ih =>
    cases k with
    | zero => rfl
    | succ n => simp only [List.set, List.drop_succ_cons]; rw [ih]

theorem mem_of_getElem? {α : Type} {l : List α} {k : Nat} {a : α}
    (h : l[k]? = some a) : a ∈ l := by
  have hlt : k < l.length := by
    by_contra hge
    rw [List.getElem?_eq_none (Nat.le_of_not_lt hge)] at h
    exact Option.noConfusion h
  have h2 := List.getElem?_eq_getElem hlt
  rw [h] at h2
  have h3 : a = l[k] := by injection h2
  rw [h3]
  exact List.getElem_mem hlt

theorem getElem?_of_drop_eq {α : Type} {l : List α} {k : Nat} {r : α} {rest : List α}
    (h : l.drop k = r :: rest) : l[k]? = some r := by
  have h0 : (l.drop k)[0]? = some r := by rw [h]; simp
  rw [List.getElem?_drop] at h0
  simpa using h0

theorem drop_succ_of_drop_eq {α : Type} {l : List α} {k : Nat} {r : α} {rest : List α}
    (h : l.drop k = r :: rest) : l.drop (k + 1) = rest := by
  have h1 : l.drop (k + 1) = (l.drop k).drop 1 := by
    rw [List.drop_drop]
  rw [h1, h]
  rfl

theorem lt_length_of_drop_eq {α : Type} {l : List α} {k : Nat} {r : α} {rest : List α}
    (h : l.drop k = r :: rest) : k < l.length := by
  have h1 : (l.drop k).length = l.length - k := List.length_drop k l
  rw [h] at h1
  simp only [List.length_cons] at h1
  omega

/-- When no rocket in the suffix from index k arrives after advancing, the
rockets forEach from k just advances every remaining rocket in place. -/
theorem rocketsGo_no_arrival :
    ∀ (suf : List Rocket) (s : GState) (k : Nat),
      s.rockets.drop k = suf →
      (∀ r ∈ suf, ¬ (advanceRocket r).targetY ≤ (advanceRocket r).y) →
      loopGo rocketStep s k suf.length =
        { s with rockets := s.rockets.take k ++ suf.map advanceRocket } := by
  intro suf
  induction suf with
  | nil =>
    intro s k hdrop _
    have hlen : s.rockets.length ≤ k := by
      have h1 : (s.rockets.drop k).length = s.rockets.length - k := List.length_drop k s.rockets
      rw [hdrop] at h1
      simp only [List.length_nil] at h1
      omega
    simp only [List.length_nil, loopGo, List.map_nil, List.append_nil,
      List.take_of_length_le hlen]
  | cons r rest ih =>
    intro s k hdrop hno
    have hk : k < s.rockets.length := lt_length_of_drop_eq hdrop
    have hget : s.rockets[k]? = some r := getElem?_of_drop_eq hdrop
    simp only [List.length_cons, loopGo]
    have hstep : rocketStep s k = { s with rockets := s.rockets.set k (advanceRocket r) } := by
      unfold rocketStep
      rw [hget]
      dsimp only
      rw [if_neg (hno r (List.mem_cons_self r rest))]
    rw [hstep]
    have hdrop' :
        ({ s with rockets := s.rockets.set k (advanceRocket r) } : GState).rockets.drop (k + 1) =
          rest := by
      dsimp only
      rw [drop_succ_set]
      exact drop_succ_of_drop_eq hdrop
    have hrec := ih { s with rockets := s.rockets.set k (advanceRocket r) } (k + 1) hdrop'
      (fun r' hr' => hno r' (List.mem_cons_of_mem r hr'))
    rw [hrec]
    dsimp only
    rw [take_succ_set s.rockets k (advanceRocket r) hk]
    simp

/-- When no interceptor in the suffix from index k reaches progress 1 after
advancing, the interceptors forEach from k just advances each in place. -/
theorem intersGo_no_det :
    ∀ (suf : List Interceptor) (s : GState) (k : Nat),
      s.interceptors.drop k = suf →
      (∀ i ∈ suf, ¬ (1 : ℚ) ≤ (advanceInter i).progress) →
      loopGo interStep s k suf.length =
        { s with interceptors := s.interceptors.take k ++ suf.map advanceInter } := by
  intro suf
  induction suf with
  | nil =>
    intro s k hdrop _
    have hlen : s.interceptors.length ≤ k := by
      have h1 : (s.interceptors.drop k).length = s.interceptors.length - k :=
        List.length_drop k s.interceptors
      rw [hdrop] at h1
      simp only [List.length_nil] at h1
      omega
    simp only [List.length_nil, loopGo, List.map_nil, List.append_nil,
      List.take_of_length_le hlen]
  | cons i rest ih =>
    intro s k hdrop hno
    have hk : k < s.interceptors.length := lt_length_of_drop_eq hdrop
    have hget : s.interceptors[k]? = some i := getElem?_of_drop_eq hdrop
    simp only [List.length_cons, loopGo]
    have hstep : interStep s k =
        { s with interceptors := s.interceptors.set k (advanceInter i) } := by
      unfold interStep
      rw [hget]
      dsimp only
      rw [if_neg (hno i (List.mem_cons_self i rest))]
    rw [hstep]
    have hdrop' :
        ({ s with interceptors := s.interceptors.set k (advanceInter i) } :
          GState).interceptors.drop (k + 1) = rest := by
      dsimp only
      rw [drop_succ_set]
      exact drop_succ_of_drop_eq hdrop
    have hrec := ih { s with interceptors := s.interceptors.set k (advanceInter i) } (k + 1)
      hdrop' (fun i' hi' => hno i' (List.mem_cons_of_mem i hi'))
    rw [hrec]
    dsimp only
    rw [take_succ_set s.interceptors k (advanceInter i) hk]
    simp

/-- The blast kill loop is the identity when no current rocket is inside the
blast radius. -/
theorem killGo_noop (ex ey radius : ℚ) :
    ∀ (fuel k : Nat) (s : GState),
      (∀ r ∈ s.rockets, killCondB ex ey radius r = false) →
      loopGo (killStep ex ey radius) s k fuel = s := by
  intro fuel
  induction fuel with
  | zero => intro k s _; rfl
  | succ n ih =>
    intro k s h
    simp only [loopGo]
    have hstep : killStep ex ey radius s k = s := by
      unfold killStep
      cases hk : s.rockets[k]? with
      | none => rfl
      | some r =>
        dsimp only
        rw [if_neg (by simp [h r (mem_of_getElem? hk)])]
    rw [hstep]
    exact ih (k + 1) s h

/-- When every explosion in the suffix from index k survives its phase step
and kills no current rocket, the explosions forEach from k just applies the
phase step to each in place. -/
theorem expsGo_no_removal :
    ∀ (suf : List Explosion) (s : GState) (k : Nat),
      s.explosions.drop k = suf →
      (∀ e ∈ suf, (expPhase e).2 = false) →
      (∀ e ∈ suf, ∀ r ∈ s.rockets,
        killCondB (expPhase e).1.x (expPhase e).1.y (expPhase e).1.radius r = false) →
      loopGo expStep s k suf.length =
        { s with explosions := s.explosions.take k ++ suf.map (fun e => (expPhase e).1) } := by
  intro suf
  induction suf with
  | nil =>
    intro s k hdrop _ _
    have hlen : s.explosions.length ≤ k := by
      have h1 : (s.explosions.drop k).length = s.explosions.length - k :=
        List.length_drop k s.explosions
      rw [hdrop] at h1
      simp only [List.length_nil] at h1
      omega
    simp only [List.length_nil, loopGo, List.map_nil, List.append_nil,
      List.take_of_length_le hlen]
  | cons e rest ih =>
    intro s k hdrop hsurv hkill
    have hk : k < s.explosions.length := lt_length_of_drop_eq hdrop
    have hget : s.explosions[k]? = some e := getElem?_of_drop_eq hdrop
    simp only [List.length_cons, loopGo]
    have hstep : expStep s k = { s with explosions := s.explosions.set k (expPhase e).1 } := by
      unfold expStep
      rw [hget]
      dsimp only
      rw [if_neg (by simp [hsurv e (List.mem_cons_self e rest)])]
      exact killGo_noop _ _ _ _ 0 _ (hkill e (List.mem_cons_self e rest))
    rw [hstep]
    have hdrop' :
        ({ s with explosions := s.explosions.set k (expPhase e).1 } :
          GState).explosions.drop (k + 1) = rest := by
      dsimp only
      rw [drop_succ_set]
      exact drop_succ_of_drop_eq hdrop
    have hrec := ih { s with explosions := s.explosions.set k (expPhase e).1 } (k + 1) hdrop'
      (fun e' he' => hsurv e' (List.mem_cons_of_mem e he'))
      (fun e' he' => hkill e' (List.mem_cons_of_mem e he'))
    rw [hrec]
    dsimp only
    rw [take_succ_set s.explosions k (expPhase e).1 hk]
    simp

theorem rocketsPhase_no_arrival (s : GState)
    (h : ∀ r ∈ s.rockets, ¬ (advanceRocket r).targetY ≤ (advanceRocket r).y) :
    rocketsPhase s = { s with rockets := s.rockets.map advanceRocket } := by
  unfold rocketsPhase
  have hgo := rocketsGo_no_arrival s.rockets s 0 rfl h
  simpa using hgo

theorem intersPhase_no_det (s : GState)
    (h : ∀ i ∈ s.interceptors, ¬ (1 : ℚ) ≤ (advanceInter i).progress) :
    intersPhase s = { s with interceptors := s.interceptors.map advanceInter } := by
  unfold intersPhase
  have hgo := intersGo_no_det s.interceptors s 0 rfl h
  simpa using hgo

theorem expsPhase_no_removal (s : GState)
    (hsurv : ∀ e ∈ s.explosions, (expPhase e).2 = false)
    (hkill : ∀ e ∈ s.explosions, ∀ r ∈ s.rockets,
      killCondB (expPhase e).1.x (expPhase e).1.y (expPhase e).1.radius r = false) :
    expsPhase s = { s with explosions := s.explosions.map (fun e => (expPhase e).1) } := by
  unfold expsPhase
  have hgo := expsGo_no_removal s.explosions s 0 rfl hsurv hkill
  simpa using hgo

/-- Effects of one rocket arrival (explosion, city/tower damage) in the
collect-survivors reimplementation. -/
def applyArrival (s : GState) (r : Rocket) : GState :=
  { s with
    explosions := s.explosions ++ [mkRocketExplosion s.nextId r.targetX r.targetY],
    cities := s.cities.map (damageCity r.targetX r.targetY),
    towers := s.towers.map (damageTower r.targetX r.targetY),
    nextId := s.nextId + 1 }

/-- Rockets phase reimplemented as advance-all, collect survivors into a new
sequence, then apply each arrival's effects in order. -/
def rocketsPhaseAlt (st : GState) : GState :=
  let adv := st.rockets.map advanceRocket
  let arrivals := adv.filter (fun r => decide (r.targetY ≤ r.y))
  let survivors := adv.filter (fun r => !decide (r.targetY ≤ r.y))
  arrivals.foldl applyArrival { st with rockets := survivors }

/-- Interceptors phase reimplemented as advance-all, collect survivors, then
detonate each arrival in order. -/
def intersPhaseAlt (st : GState) : GState :=
  let adv := st.interceptors.map advanceInter
  let dets := adv.filter (fun i => decide ((1 : ℚ) ≤ i.progress))
  let survivors := adv.filter (fun i => !decide ((1 : ℚ) ≤ i.progress))
  dets.foldl
    (fun s i =>
      { s with
        explosions := s.explosions ++ [mkInterExplosion s.nextId i.targetX i.targetY],
        nextId := s.nextId + 1 })
    { st with interceptors := survivors }

/-- Blast kills of one (phase-updated) explosion in the collect-survivors
reimplementation: filter out the rockets inside the radius and award
POINTS_PER_KILL for each. -/
def killsAltStep (s : GState) (e : Explosion) : GState :=
  let victims := s.rockets.filter (fun r => killCondB e.x e.y e.radius r)
  { s with
    rockets := s.rockets.filter (fun r => !killCondB e.x e.y e.radius r),
    score := s.score + POINTS_PER_KILL * (victims.length : ℚ) }

/-- Explosions phase reimplemented as phase-update all, collect the
non-collapsed survivors into a new sequence, then apply each updated
explosion's kills in order. -/
def expsPhaseAlt (st : GState) : GState :=
  let phased := st.explosions.map expPhase
  let survivors := (phased.filter (fun p => !p.2)).map (fun p => p.1)
  (phased.map (fun p => p.1)).foldl killsAltStep { st with explosions := survivors }

/-- The four phases with the collect-survivors reimplementations. -/
def passCoreAlt (st : GState) (dt : ℚ) (rnd : SpawnRand) : GState :=
  expsPhaseAlt (intersPhaseAlt (rocketsPhaseAlt (spawnStep st dt rnd)))

/-- update(deltaTime) with the collect-survivors reimplementation of every
removal-during-iteration site. -/
def updateAlt (st : GState) (dt : ℚ) (rnd : SpawnRand) : GState :=
  if st.gameState = GameState.PLAYING then
    let score0 := st.score
    let st1 := passCoreAlt st dt rnd
    let st2 := if WIN_SCORE ≤ score0 then { st1 with gameState := GameState.WON } else st1
    if allTowersDestroyed st2.towers then { st2 with gameState := GameState.LOST } else st2
  else st

theorem rocketsPhaseAlt_no_arrival (s : GState)
    (h : ∀ r ∈ s.rockets, ¬ (advanceRocket r).targetY ≤ (advanceRocket r).y) :
    rocketsPhaseAlt s = { s with rockets := s.rockets.map advanceRocket } := by
  simp only [rocketsPhaseAlt]
  have h1 : (s.rockets.map advanceRocket).filter (fun r => decide (r.targetY ≤ r.y)) = [] := by
    rw [List.filter_eq_nil_iff]
    intro a ha
    obtain ⟨r0, hr0, rfl⟩ := List.mem_map.mp ha
    simpa using h r0 hr0
  have h2 : (s.rockets.map advanceRocket).filter (fun r => !decide (r.targetY ≤ r.y)) =
      s.rockets.map advanceRocket := by
    rw [List.filter_eq_self]
    intro a ha
    obtain ⟨r0, hr0, rfl⟩ := List.mem_map.mp ha
    simpa using h r0 hr0
  rw [h1, h2]
  rfl

theorem intersPhaseAlt_no_det (s : GState)
    (h : ∀ i ∈ s.interceptors, ¬ (1 : ℚ) ≤ (advanceInter i).progress) :
    intersPhaseAlt s = { s with interceptors := s.interceptors.map advanceInter } := by
  simp only [intersPhaseAlt]
  have h1 : (s.interceptors.map advanceInter).filter
      (fun i => decide ((1 : ℚ) ≤ i.progress)) = [] := by
    rw [List.filter_eq_nil_iff]
    intro a ha
    obtain ⟨i0, hi0, rfl⟩ := List.mem_map.mp ha
    simpa using h i0 hi0
  have h2 : (s.interceptors.map advanceInter).filter
      (fun i => !decide ((1 : ℚ) ≤ i.progress)) = s.interceptors.map advanceInter := by
    rw [List.filter_eq_self]
    intro a ha
    obtain ⟨i0, hi0, rfl⟩ := List.mem_map.mp ha
    simpa using h i0 hi0
  rw [h1, h2]
  rfl

theorem killsAlt_noop :
    ∀ (es : List Explosion) (s : GState),
      (∀ e ∈ es, ∀ r ∈ s.rockets, killCondB e.x e.y e.radius r = false) →
      es.foldl killsAltStep s = s := by
  intro es
  induction es with
  | nil => intro s _; rfl
  | cons e rest ih =>
    intro s h
    simp only [List.foldl_cons]
    have hstep : killsAltStep s e = s := by
      simp only [killsAltStep]
      have hf1 : s.rockets.filter (fun r => !killCondB e.x e.y e.radius r) = s.rockets := by
        rw [List.filter_eq_self]
        intro a ha
        simp [h e (List.mem_cons_self e rest) a ha]
      have hf2 : s.rockets.filter (fun r => killCondB e.x e.y e.radius r) = [] := by
        rw [List.filter_eq_nil_iff]
        intro a ha
        simp [h e (List.mem_cons_self e rest) a ha]
      rw [hf1, hf2]
      simp
    rw [hstep]
    exact ih s (fun e' he' => h e' (List.mem_cons_of_mem e he'))

theorem expsPhaseAlt_no_removal (s : GState)
    (hsurv : ∀ e ∈ s.explosions, (expPhase e).2 = false)
    (hkill : ∀ e ∈ s.explosions, ∀ r ∈ s.rockets,
      killCondB (expPhase e).1.x (expPhase e).1.y (expPhase e).1.radius r = false) :
    expsPhaseAlt s = { s with explosions := s.explosions.map (fun e => (expPhase e).1) } := by
  simp only [expsPhaseAlt]
  have h1 : (s.explosions.map expPhase).filter (fun p => !p.2) = s.explosions.map expPhase := by
    rw [List.filter_eq_self]
    intro a ha
    obtain ⟨e0, he0, rfl⟩ := List.mem_map.mp ha
    simp [hsurv e0 he0]
  rw [h1]
  have h2 : (s.explosions.map expPhase).map (fun p => p.1) =
      s.explosions.map (fun e => (expPhase e).1) := by
    rw [List.map_map]
    rfl
  rw [h2]
  apply killsAlt_noop
  intro e' he' r hr
  obtain ⟨e0, he0, rfl⟩ := List.mem_map.mp he'
  exact hkill e0 he0 r hr

/-- C4 amended: the splice-during-forEach of the source is NOT equivalent to
collect-survivors in general — after an in-iteration removal the element that
shifted into the removed slot is skipped for the rest of that pass (it is
neither advanced nor checked), so consecutive removals diverge (see the
counterexample).  The two implementations do agree on every pass in which no
entity is removed during iteration: no rocket arrival, no interceptor
detonation, no explosion collapse and no blast kill. -/
theorem c4_splice_equiv (st : GState) (dt : ℚ) (rnd : SpawnRand)
    (h1 : ∀ r ∈ (spawnStep st dt rnd).rockets,
      ¬ (advanceRocket r).targetY ≤ (advanceRocket r).y)
    (h2 : ∀ i ∈ (spawnStep st dt rnd).interceptors,
      ¬ (1 : ℚ) ≤ (advanceInter i).progress)
    (h3 : ∀ e ∈ (spawnStep st dt rnd).explosions, (expPhase e).2 = false)
    (h4 : ∀ e ∈ (spawnStep st dt rnd).explosions, ∀ r ∈ (spawnStep st dt rnd).rockets,
      killCondB (expPhase e).1.x (expPhase e).1.y (expPhase e).1.radius
        (advanceRocket r) = false) :
    update st dt rnd = updateAlt st dt rnd := by
  have hpass : passCore st dt rnd = passCoreAlt st dt rnd := by
    unfold passCore passCoreAlt
    set s1 := spawnStep st dt rnd with hs1
    rw [rocketsPhase_no_arrival s1 h1, rocketsPhaseAlt_no_arrival s1 h1]
    set s2 : GState := { s1 with rockets := s1.rockets.map advanceRocket } with hs2
    have h2' : ∀ i ∈ s2.interceptors, ¬ (1 : ℚ) ≤ (advanceInter i).progress := h2
    rw [intersPhase_no_det s2 h2', intersPhaseAlt_no_det s2 h2']
    set s3 : GState := { s2 with interceptors := s2.interceptors.map advanceInter } with hs3
    have h3' : ∀ e ∈ s3.explosions, (expPhase e).2 = false := h3
    have h4' : ∀ e ∈ s3.explosions, ∀ r ∈ s3.rockets,
        killCondB (expPhase e).1.x (expPhase e).1.y (expPhase e).1.radius r = false := by
      intro e he r hr
      have he' : e ∈ s1.explosions := he
      have hr' : r ∈ s1.rockets.map advanceRocket := hr
      obtain ⟨r0, hr0, rfl⟩ := List.mem_map.mp hr'
      exact h4 e he' r0 hr0
    rw [expsPhase_no_removal s3 h3' h4', expsPhaseAlt_no_removal s3 h3' h4']
  unfold update updateAlt
  rw [hpass]

/-- Two rockets both exactly at their targets' height, about to arrive on the
same pass. -/
def c4State : GState :=
  ⟨GameState.PLAYING,
   [⟨0, 100, 580, 100, 580, 1, 0⟩, ⟨1, 200, 580, 200, 580, 1, 0⟩],
   [], [], INITIAL_TOWERS, INITIAL_CITIES, 0, 0, 0⟩

/-- C4 counterexample: with two consecutive arriving rockets, the source's
splice-during-forEach removes the first and then skips the second (it shifted
into the removed slot), leaving one rocket and one explosion, while the
collect-survivors reimplementation removes both and creates two explosions —
the resulting entity collections differ. -/
theorem c4_counterexample :
    (update c4State 0 ⟨0, 0, 0⟩).rockets.length = 1 ∧
    (updateAlt c4State 0 ⟨0, 0, 0⟩).rockets.length = 0 ∧
    (update c4State 0 ⟨0, 0, 0⟩).explosions.length = 1 ∧
    (updateAlt c4State 0 ⟨0, 0, 0⟩).explosions.length = 2 ∧
    update c4State 0 ⟨0, 0, 0⟩ ≠ updateAlt c4State 0 ⟨0, 0, 0⟩ := by
  refine ⟨by decide, by decide, by decide, by decide, by decide⟩

/-- A no-removal state: a mid-flight rocket, a mid-flight interceptor on a
vertical (rational-distance) trajectory, and a far-away expanding explosion. -/
def c4QuietState : GState :=
  ⟨GameState.PLAYING,
   [⟨0, 300, 100, 300, 580, 1, 0⟩],
   [⟨1, 400, 560, 400, 560, 400, 300, 10, 0⟩],
   [⟨2, 700, 100, 10, 40, 2, true⟩],
   INITIAL_TOWERS, INITIAL_CITIES, 0, 0, 0⟩

/-- Witness for C4 amended at a concrete pass without removals. -/
theorem c4_splice_equiv_witness :
    (∀ r ∈ (spawnStep c4QuietState 0 ⟨0, 0, 0⟩).rockets,
      ¬ (advanceRocket r).targetY ≤ (advanceRocket r).y) ∧
    (∀ i ∈ (spawnStep c4QuietState 0 ⟨0, 0, 0⟩).interceptors,
      ¬ (1 : ℚ) ≤ (advanceInter i).progress) ∧
    update c4QuietState 0 ⟨0, 0, 0⟩ = updateAlt c4QuietState 0 ⟨0, 0, 0⟩ := by
  refine ⟨by decide, by decide, c4_splice_equiv c4QuietState 0 ⟨0, 0, 0⟩
    (by decide) (by decide) (by decide) (by decide)⟩

end NovaDefense
